import Mathlib

/-!
Verification of the Aetherius quest-board bot (Aetherius 1.5).

Shallow embedding of `utils/parser.py`, `utils/storage.py` and the quest
state-machine operations of `cogs/quest.py` (accept / leave / kick / apply /
set-status / update / delete), together with theorems settling the spec
claims about them.

Strings are modelled as `List Char`; Python's ASCII `str.upper()` and
`str.strip()` are modelled by `upChar` / `pstrip`.
-/

namespace Aetherius

/-! ### Character and string helpers -/

/-- ASCII model of Python `str.upper()` applied to one character:
codepoints 97-122 (`a`-`z`) are shifted down by 32, everything else is kept. -/
def upChar (c : Char) : Char :=
  if 97 ≤ c.toNat ∧ c.toNat ≤ 122 then Char.ofNat (c.toNat - 32) else c

/-- Model of Python `str.upper()` (ASCII fragment). -/
def pupper (l : List Char) : List Char := l.map upChar

/-- Model of Python `str.strip()`: drop leading and trailing whitespace. -/
def pstrip (l : List Char) : List Char :=
  ((l.dropWhile Char.isWhitespace).reverse.dropWhile Char.isWhitespace).reverse

/-! ### Bracket scanner

`scanB` is the model of applying the regex `\[([^\]]+)\]` to a title:
`(scanB l).1` is `findall` (the list of bracketed token contents, in order)
and `(scanB l).2` is `sub("", l)` (the input with every match removed).
A match starts at a literal `[`, its content is every character up to the
first following `]`, and the content must be non-empty. -/

/-- Scanner core. `acc = none`: outside any bracket; `acc = some a`: a `[`
has been seen and `a` holds the (`]`-free) content accumulated since. -/
def scanCore : List Char → Option (List Char) → List (List Char) × List Char
  | [], none => ([], [])
  | [], some a => ([], '[' :: a)
  | c :: rest, none =>
    if c = '[' then scanCore rest (some [])
    else
      let p := scanCore rest none
      (p.1, c :: p.2)
  | c :: rest, some a =>
    if c = ']' then
      if a = [] then
        let p := scanCore rest none
        (p.1, '[' :: ']' :: p.2)
      else
        let p := scanCore rest none
        (a :: p.1, p.2)
    else scanCore rest (some (a ++ [c]))

def scanB (l : List Char) : List (List Char) × List Char := scanCore l none

/-! ### Title parser (utils/parser.py) -/

def VALID_STATUS : List (List Char) :=
  ["RECRUITING".data, "FULL".data, "COMPLETED".data, "CANCELLED".data]

def VALID_MODE : List (List Char) :=
  ["ONLINE".data, "OFFLINE".data]

def VALID_TYPE : List (List Char) :=
  ["ONESHOT".data, "CAMPAIGN".data]

/-- Result of `parse_title`: the five keys of the returned dict. -/
structure ParsedTitle where
  status : Option (List Char)
  mode : Option (List Char)
  quest_type : Option (List Char)
  system : Option (List Char)
  title : List Char
deriving Repr, DecidableEq

/-- One iteration of the token-classification loop in `parse_title`:
`upper = token.strip().upper()` is matched against the vocabularies, and the
first non-matching token becomes the system. -/
def procToken (r : ParsedTitle) (token : List Char) : ParsedTitle :=
  if pupper (pstrip token) ∈ VALID_STATUS then
    { r with status := some (pupper (pstrip token)) }
  else if pupper (pstrip token) ∈ VALID_MODE then
    { r with mode := some (pupper (pstrip token)) }
  else if pupper (pstrip token) ∈ VALID_TYPE then
    { r with quest_type := some (pupper (pstrip token)) }
  else if r.system = none then
    { r with system := some (pupper (pstrip token)) }
  else r

/-- Model of `parse_title` from `utils/parser.py`: classify every bracketed
token, then the stripped remainder (or the default) becomes the title. -/
def parse_title (t : List Char) : ParsedTitle :=
  { (scanB t).1.foldl procToken ⟨none, none, none, none, []⟩ with
    title :=
      if pstrip (scanB t).2 = [] then "Untitled Quest".data
      else pstrip (scanB t).2 }

/-- Python truthiness of an optional string field of a quest dict:
`None` and the empty string are falsy. -/
def truthy : Option (List Char) → Bool
  | none => false
  | some s => !s.isEmpty

/-- Model of `" ".join(parts)`. -/
def joinSpace : List (List Char) → List Char
  | [] => []
  | [x] => x
  | x :: y :: rest => x ++ ' ' :: joinSpace (y :: rest)

/-- Core of `build_thread_title`: renders `[STATUS] [MODE] [TYPE] [SYSTEM] title`
from the five fields, skipping falsy fields (`if quest.get(...)`). -/
def build_core (st mo qt sy : Option (List Char)) (ti : List Char) : List Char :=
  joinSpace
    ((if truthy st then [('[' :: st.getD []) ++ [']']] else []) ++
      (if truthy mo then [('[' :: mo.getD []) ++ [']']] else []) ++
      (if truthy qt then [('[' :: qt.getD []) ++ [']']] else []) ++
      (if truthy sy then [('[' :: sy.getD []) ++ [']']] else []) ++
      [ti])

/-! ### Quest records (the dicts stored in `data/quests.json`) -/

/-- A quest record.  User/channel identifiers are opaque and modelled as `Nat`;
optional string fields are `Option (List Char)` (`none` = Python `None`).
`max_players` is the non-negative roster bound of the data model (0 = unlimited). -/
structure Quest where
  guild_id : Nat
  thread_id : Nat
  dm_id : Nat
  title : List Char
  status : Option (List Char)
  mode : Option (List Char)
  quest_type : Option (List Char)
  system : Option (List Char)
  max_players : Nat
  roster : List Nat
  waitlist : List Nat
  embed_channel_id : Option Nat
  embed_message_id : Option Nat
deriving Repr, DecidableEq

/-- Model of `build_thread_title` from `utils/parser.py`, on a quest record. -/
def build_thread_title (q : Quest) : List Char :=
  build_core q.status q.mode q.quest_type q.system q.title

/-- The function `build_thread_title` applied to the dict returned by `parse_title`. -/
def build_thread_title_parsed (p : ParsedTitle) : List Char :=
  build_core p.status p.mode p.quest_type p.system p.title

/-- A bracket-regex match exists in `l`: some `[w]` with `w` non-empty and
free of `]`. -/
def Matchable (l : List Char) : Prop :=
  ∃ x y z, l = x ++ '[' :: y ++ ']' :: z ∧ y ≠ [] ∧ ']' ∉ y

/-! ### Rate limiter (`_check_apply_rate`) -/

def APPLICATION_LIMIT : Nat := 3
def APPLICATION_WINDOW : Nat := 3600

/-- Model of `_check_apply_rate`: takes the current time and the stored
timestamp list for one `(user, quest)` key; returns `((allowed, reset_in),
new stored list)`.  Timestamps are seconds, `Nat`; `now - t` is truncated
subtraction, which agrees with Python for the always-past timestamps. -/
def check_apply_rate (now : Nat) (times : List Nat) : (Bool × Nat) × List Nat :=
  if APPLICATION_LIMIT ≤ (times.filter (fun t => now - t < APPLICATION_WINDOW)).length then
    ((false,
        APPLICATION_WINDOW -
          (now - (times.filter (fun t => now - t < APPLICATION_WINDOW)).headD 0)),
      times.filter (fun t => now - t < APPLICATION_WINDOW))
  else
    ((true, 0), times.filter (fun t => now - t < APPLICATION_WINDOW) ++ [now])

/-- The decisions `_check_apply_rate` takes on a sequence of attempts at the
given times, starting from a stored timestamp list. -/
def rateDecisions (state : List Nat) : List Nat → List Bool
  | [] => []
  | now :: rest =>
    (check_apply_rate now state).1.1 ::
      rateDecisions (check_apply_rate now state).2 rest

/-- Spec-side reference for the rate limit, written from the claim's words:
an attempt is allowed iff fewer than `APPLICATION_LIMIT` *allowed* attempts
fall within the rolling window ending at the attempt's timestamp (`A` is the
list of previously allowed attempt times); a rejected attempt consumes no
slot. -/
def claimDecisions (A : List Nat) : List Nat → List Bool
  | [] => []
  | now :: rest =>
    if (A.filter (fun t => now - t < APPLICATION_WINDOW)).length < APPLICATION_LIMIT then
      true :: claimDecisions (A ++ [now]) rest
    else
      false :: claimDecisions A rest

/-! ### State-machine operations (cogs/quest.py) -/

inductive AcceptRes | notFound | alreadyOnRoster | rosterFull | accepted
deriving Repr, DecidableEq

/-- Roster/status mutation of `AcceptButton.callback` on a loaded quest. -/
def acceptApplicant (q : Quest) (applicant : Nat) : AcceptRes × Quest :=
  if applicant ∈ q.roster then (.alreadyOnRoster, q)
  else if q.max_players ≠ 0 ∧ q.max_players ≤ q.roster.length then (.rosterFull, q)
  else
    (.accepted,
      { q with
        roster := q.roster ++ [applicant]
        status :=
          if q.max_players ≠ 0 ∧ q.max_players ≤ (q.roster ++ [applicant]).length then
            some "FULL".data
          else q.status })

inductive LeaveRes | notFound | notOnRoster | left
deriving Repr, DecidableEq

/-- Roster/status mutation of `LeaveButton.callback` on a loaded quest. -/
def leaveQuest (q : Quest) (uid : Nat) : LeaveRes × Quest :=
  if uid ∈ q.roster then
    (.left,
      { q with
        roster := q.roster.erase uid
        status :=
          if q.status = some "FULL".data then some "RECRUITING".data
          else q.status })
  else (.notOnRoster, q)

inductive KickRes | notFound | notAuthorized | notOnRoster | kicked
deriving Repr, DecidableEq

/-- Roster/status mutation of `QuestCog.quest_kick` on a loaded quest;
`isManager` is the `_is_quest_manager` check. -/
def kickUser (q : Quest) (isManager : Bool) (uid : Nat) : KickRes × Quest :=
  if !isManager then (.notAuthorized, q)
  else if uid ∈ q.roster then
    (.kicked,
      { q with
        roster := q.roster.erase uid
        status :=
          if q.status = some "FULL".data then some "RECRUITING".data
          else q.status })
  else (.notOnRoster, q)

/-- Model of `_set_status` (used by `/quest complete` and `/quest cancel`). -/
def setStatusOp (q : Quest) (isManager : Bool) (new : List Char) : Bool × Quest :=
  if isManager then (true, { q with status := some new }) else (false, q)

/-- Model of `/quest update`: overwrites the truthy arguments (uppercased), and
`max_players` when it is not `None`.  Roster and waitlist are untouched. -/
def updateQuest (q : Quest) (isManager : Bool)
    (st mo qt sy : Option (List Char)) (mp : Option Nat) : Bool × Quest :=
  if !isManager then (false, q)
  else
    (true,
      { q with
        status := if truthy st then some (pupper (st.getD [])) else q.status
        mode := if truthy mo then some (pupper (mo.getD [])) else q.mode
        quest_type := if truthy qt then some (pupper (qt.getD [])) else q.quest_type
        system := if truthy sy then some (pupper (sy.getD [])) else q.system
        max_players := mp.getD q.max_players })

/-- Quest-record construction shared by `/quest recruit` (new-quest branch),
`/quest register` and `ForumListenerCog.on_thread_create`: a fresh record from
the parsed thread title, always with empty roster and waitlist. -/
def mkQuest (guild thread dm : Nat) (parsed : ParsedTitle)
    (system : Option (List Char)) (max_players : Nat)
    (embed_ch : Option Nat) : Quest :=
  { guild_id := guild
    thread_id := thread
    dm_id := dm
    title := parsed.title
    status := if truthy parsed.status then parsed.status else some "RECRUITING".data
    mode := parsed.mode
    quest_type := parsed.quest_type
    system := system
    max_players := max_players
    roster := []
    waitlist := []
    embed_channel_id := embed_ch
    embed_message_id := none }

/-! ### Storage (utils/storage.py)

The persisted document holds `quests` and `daily_counter`; both are Python
dicts, modelled as insertion-ordered association lists with unique keys. -/

/-- Python dict assignment `d[k] = v`: replace the binding if the key is
present, else append a new binding. -/
def setA {α : Type} (k : List Char) (v : α) :
    List (List Char × α) → List (List Char × α)
  | [] => [(k, v)]
  | (k2, v2) :: rest =>
    if k2 = k then (k, v) :: rest else (k2, v2) :: setA k v rest

/-- The `data/quests.json` document (guild configs omitted: no claim uses them). -/
structure StoreDoc where
  quests : List (List Char × Quest)
  daily_counter : List (List Char × Nat)
deriving Repr, DecidableEq

/-- Model of `str(current).zfill(4)`. -/
def zfill4 (s : List Char) : List Char := List.replicate (4 - s.length) '0' ++ s

/-- Model of `generate_quest_id`, with the UTC date key passed in: bump the per-day
counter, save it back into the document, return `"ddmmyy-NNNN"`. -/
def generate_quest_id (doc : StoreDoc) (date_key : List Char) :
    List Char × StoreDoc :=
  (date_key ++ '-' ::
      zfill4 (Nat.repr ((doc.daily_counter.lookup date_key).getD 0 + 1)).data,
    { doc with
      daily_counter :=
        setA date_key ((doc.daily_counter.lookup date_key).getD 0 + 1)
          doc.daily_counter })

def save_quest (doc : StoreDoc) (qid : List Char) (q : Quest) : StoreDoc :=
  { doc with quests := setA qid q doc.quests }

def get_quest (doc : StoreDoc) (qid : List Char) : Option Quest :=
  doc.quests.lookup qid

/-- Model of `delete_quest`: `data["quests"].pop(quest_id, None)`; a dict never holds a
duplicate key, so popping the key removes every binding for it. -/
def delete_quest (doc : StoreDoc) (qid : List Char) : StoreDoc :=
  { doc with quests := doc.quests.filter (fun p => p.1 ≠ qid) }

def get_all_quests (doc : StoreDoc) : List (List Char × Quest) := doc.quests

/-! ### Store-level operations (load record, mutate, save on success) -/

/-- Model of `AcceptButton.callback`: load, validate, and save only when accepted. -/
def acceptOp (doc : StoreDoc) (qid : List Char) (applicant : Nat) :
    AcceptRes × StoreDoc :=
  match get_quest doc qid with
  | none => (.notFound, doc)
  | some q =>
    let r := acceptApplicant q applicant
    if r.1 = .accepted then (r.1, save_quest doc qid r.2) else (r.1, doc)

/-- Model of `LeaveButton.callback`: load, validate, and save only on a real leave. -/
def leaveOp (doc : StoreDoc) (qid : List Char) (uid : Nat) :
    LeaveRes × StoreDoc :=
  match get_quest doc qid with
  | none => (.notFound, doc)
  | some q =>
    if (leaveQuest q uid).1 = .left then
      ((leaveQuest q uid).1, save_quest doc qid (leaveQuest q uid).2)
    else ((leaveQuest q uid).1, doc)

/-- Model of `QuestCog.quest_kick`: load, authorize, validate, save only on a kick. -/
def kickOp (doc : StoreDoc) (qid : List Char) (isManager : Bool) (uid : Nat) :
    KickRes × StoreDoc :=
  match get_quest doc qid with
  | none => (.notFound, doc)
  | some q =>
    if (kickUser q isManager uid).1 = .kicked then
      ((kickUser q isManager uid).1, save_quest doc qid (kickUser q isManager uid).2)
    else ((kickUser q isManager uid).1, doc)

inductive ApplyRes
  | notFound | closed | ownQuest | alreadyOnRoster
  | rateLimited (reset : Nat) | sent
deriving Repr, DecidableEq

/-- Model of `ApplyButton.callback`: never writes to the quest store; it only checks
the record, consults the rate limiter and (on success) sends an application
to the organizer.  Returns the outcome, the (unchanged) store and the updated
rate-limiter entry for this `(user, quest)` key. -/
def applyOp (doc : StoreDoc) (qid : List Char) (uid : Nat)
    (times : List Nat) (now : Nat) : ApplyRes × StoreDoc × List Nat :=
  match get_quest doc qid with
  | none => (.notFound, doc, times)
  | some q =>
    if q.status = some "COMPLETED".data ∨ q.status = some "CANCELLED".data then
      (.closed, doc, times)
    else if uid = q.dm_id then (.ownQuest, doc, times)
    else if uid ∈ q.roster then (.alreadyOnRoster, doc, times)
    else if (check_apply_rate now times).1.1 then (.sent, doc, (check_apply_rate now times).2)
    else (.rateLimited (check_apply_rate now times).1.2, doc, (check_apply_rate now times).2)

inductive DeleteRes | notFound | notAuthorized | deleted
deriving Repr, DecidableEq

/-- Model of `QuestCog.quest_delete`.  The two booleans are the outcomes of the
best-effort external embed-update and thread-rename calls; the code catches
any exception from them, so they do not influence the store mutation. -/
def quest_delete (doc : StoreDoc) (qid : List Char) (isManager : Bool)
    (embedOk threadOk : Bool) : DeleteRes × StoreDoc :=
  match get_quest doc qid with
  | none => (.notFound, doc)
  | some _ =>
    if !isManager then (.notAuthorized, doc)
    else
      let _ := embedOk
      let _ := threadOk
      (.deleted, delete_quest doc qid)

/-! ### Reachable quest records

Every way the program creates or rewrites a stored quest record. -/

inductive Reachable : Quest → Prop
  | created (guild thread dm : Nat) (parsed : ParsedTitle)
      (system : Option (List Char)) (max_players : Nat)
      (embed_ch : Option Nat) :
      Reachable (mkQuest guild thread dm parsed system max_players embed_ch)
  | accept (q : Quest) (a : Nat) : Reachable q → Reachable (acceptApplicant q a).2
  | leave (q : Quest) (u : Nat) : Reachable q → Reachable (leaveQuest q u).2
  | kick (q : Quest) (m : Bool) (u : Nat) : Reachable q → Reachable (kickUser q m u).2
  | set_st (q : Quest) (m : Bool) (s : List Char) :
      Reachable q → Reachable (setStatusOp q m s).2
  | update (q : Quest) (m : Bool) (st mo qt sy : Option (List Char)) (mp : Option Nat) :
      Reachable q → Reachable (updateQuest q m st mo qt sy mp).2
  | reembed (q : Quest) (e1 e2 : Option Nat) (mp : Nat) :
      Reachable q →
      Reachable { q with embed_channel_id := e1, embed_message_id := e2, max_players := mp }
  | system_unknown (q : Quest) :
      Reachable q → Reachable { q with system := some "UNKNOWN".data }

/-! ### Invariants of the data model -/

/-- Invariant: `status == FULL` iff the roster capacity is exhausted, unless the quest
was independently marked COMPLETED or CANCELLED. -/
def fullInv (q : Quest) : Prop :=
  (q.status = some "FULL".data ↔ 0 < q.max_players ∧ q.max_players ≤ q.roster.length) ∨
  q.status = some "COMPLETED".data ∨ q.status = some "CANCELLED".data

/-- Invariant: `len(roster) <= max_players` whenever `max_players > 0`. -/
def capInv (q : Quest) : Prop :=
  0 < q.max_players → q.roster.length ≤ q.max_players

instance (q : Quest) : Decidable (fullInv q) := by unfold fullInv; infer_instance

instance (q : Quest) : Decidable (capInv q) := by unfold capInv; infer_instance

/-! ### Sample records used by witnesses and counterexamples -/

/-- A one-seat quest with an empty roster. -/
def qCap1 : Quest :=
  { guild_id := 0, thread_id := 7, dm_id := 0, title := "T".data
    status := some "RECRUITING".data, mode := none, quest_type := none
    system := some "DND".data, max_players := 1, roster := [], waitlist := []
    embed_channel_id := some 5, embed_message_id := some 6 }

/-- A full one-seat quest whose (hypothetical) waitlist holds user 2. -/
def qFullW : Quest :=
  { qCap1 with roster := [1], waitlist := [2], status := some "FULL".data }

/-- A quest whose free-text `system` field collides with the status
vocabulary: `/quest update system:full` stores `"FULL"`. -/
def qBadSystem : Quest :=
  { qCap1 with system := some "FULL".data }

/-- A store holding `qFullW` under one id. -/
def docOne : StoreDoc :=
  { quests := [("010125-0001".data, qFullW)], daily_counter := [("010125".data, 1)] }

/-- A quest created from a thread titled `[FULL] x` with unlimited seats:
status FULL, `max_players = 0`, empty roster. -/
def qFull0 : Quest := mkQuest 0 0 0 (parse_title "[FULL] x".data) none 0 none

/-- The record after accepting applicant 1 onto `qFull0`. -/
def qFull0a : Quest := (acceptApplicant qFull0 1).2

/-- A quest whose roster grew to two members before `/quest update` set
`status:FULL max_players:1`, leaving the roster over capacity. -/
def qOver : Quest :=
  (updateQuest
    (acceptApplicant
      (acceptApplicant (mkQuest 0 0 0 (parse_title "x".data) none 0 none) 1).2 2).2
    true (some "full".data) none none none (some 1)).2

/-- The record after member 1 leaves the over-capacity quest `qOver`. -/
def qOverL : Quest := (leaveQuest qOver 1).2

/-! ### Helper lemmas about the association-list store -/

theorem lookup_filter_ne {α : Type} (l : List (List Char × α)) (k : List Char) :
    (l.filter (fun p => p.1 ≠ k)).lookup k = none := by
  induction l with
  | nil => rfl
  | cons p rest ih =>
    by_cases h : p.1 = k
    · have hd : decide (p.1 ≠ k) = false := by simp [h]
      rw [List.filter_cons, hd]
      exact ih
    · have hd : decide (p.1 ≠ k) = true := by simp [h]
      rw [List.filter_cons, hd]
      have hb : (k == p.1) = false := beq_eq_false_iff_ne.mpr (Ne.symm h)
      simp only [List.lookup, hb]
      exact ih

theorem length_erase_of_mem {u : Nat} {l : List Nat} (h : u ∈ l) :
    (l.erase u).length = l.length - 1 :=
  List.length_erase_of_mem h

/-! ### Preservation of the FULL-iff-capacity invariant (claim C1 helpers) -/

theorem accept_preserves (q : Quest) (a : Nat)
    (h1 : fullInv q) (h2 : capInv q) :
    fullInv (acceptApplicant q a).2 ∧ capInv (acceptApplicant q a).2 := by
  unfold fullInv at h1
  unfold capInv at h2
  by_cases hm : a ∈ q.roster
  · rw [acceptApplicant, if_pos hm]
    exact ⟨h1, h2⟩
  by_cases hfull : q.max_players ≠ 0 ∧ q.max_players ≤ q.roster.length
  · rw [acceptApplicant, if_neg hm, if_pos hfull]
    exact ⟨h1, h2⟩
  rw [acceptApplicant, if_neg hm, if_neg hfull]
  simp only [fullInv, capInv, List.length_append, List.length_singleton]
  by_cases hnow : q.max_players ≠ 0 ∧ q.max_players ≤ q.roster.length + 1
  · rw [if_pos hnow]
    refine ⟨Or.inl ⟨fun _ => ⟨by omega, hnow.2⟩, fun _ => rfl⟩, fun _ => by omega⟩
  · rw [if_neg hnow]
    refine ⟨?_, fun hp => by omega⟩
    rcases h1 with h1 | h1
    · refine Or.inl ⟨fun hs => ?_, fun hc => ?_⟩
      · obtain ⟨hp, hle⟩ := h1.mp hs
        exact absurd ⟨by omega, hle⟩ hfull
      · exact absurd ⟨by omega, hc.2⟩ hnow
    · exact Or.inr h1

theorem leave_preserves (q : Quest) (u : Nat)
    (h1 : fullInv q) (h2 : capInv q) :
    fullInv (leaveQuest q u).2 ∧ capInv (leaveQuest q u).2 := by
  unfold fullInv at h1
  unfold capInv at h2
  by_cases hm : u ∈ q.roster
  swap
  · rw [leaveQuest, if_neg hm]
    exact ⟨h1, h2⟩
  rw [leaveQuest, if_pos hm]
  have hlen : (q.roster.erase u).length = q.roster.length - 1 :=
    length_erase_of_mem hm
  have hpos : 0 < q.roster.length :=
    List.length_pos.mpr (List.ne_nil_of_mem hm)
  simp only [fullInv, capInv, hlen]
  by_cases hf : q.status = some "FULL".data
  · rw [if_pos hf]
    rcases h1 with h1 | h1 | h1
    · obtain ⟨hp, hle⟩ := h1.mp hf
      have hle2 : q.roster.length ≤ q.max_players := h2 hp
      refine ⟨Or.inl ⟨fun heq => absurd heq (by decide), fun hc => ?_⟩, fun _ => by omega⟩
      exact absurd hc.2 (by omega)
    · rw [hf] at h1
      exact absurd h1 (by decide)
    · rw [hf] at h1
      exact absurd h1 (by decide)
  · rw [if_neg hf]
    refine ⟨?_, fun hp => ?_⟩
    · rcases h1 with h1 | h1
      · refine Or.inl ⟨fun hs => absurd hs hf, fun hc => ?_⟩
        have hnot : ¬(0 < q.max_players ∧ q.max_players ≤ q.roster.length) :=
          fun hc2 => hf (h1.mpr hc2)
        exact absurd ⟨hc.1, by omega⟩ hnot
      · exact Or.inr h1
    · have := h2 hp
      omega

theorem kick_preserves (q : Quest) (m : Bool) (u : Nat)
    (h1 : fullInv q) (h2 : capInv q) :
    fullInv (kickUser q m u).2 ∧ capInv (kickUser q m u).2 := by
  cases m with
  | false => exact ⟨h1, h2⟩
  | true =>
    by_cases hm : u ∈ q.roster
    · have h := leave_preserves q u h1 h2
      rw [leaveQuest, if_pos hm] at h
      rw [kickUser]
      simpa [hm] using h
    · rw [kickUser]
      simpa [hm] using ⟨h1, h2⟩

/-! ## Claim theorems -/

/-- Claim C1 counterexample: two program-reachable traces after which a
roster-mutating operation leaves the claimed FULL-iff-capacity equivalence
false while the quest is not COMPLETED/CANCELLED.  First, a quest created
from a thread titled `[FULL] x` with unlimited seats keeps status FULL
after an accept (`max_p` is falsy, so the accept neither rejects nor
re-derives the status), yet `max_players > 0` fails.  Second, after
`/quest update status:full max_players:1` leaves a two-member roster over
capacity, a leave resets FULL to RECRUITING unconditionally although
capacity (1 ≤ 1) is still exhausted. -/
theorem c1_full_iff_counterexample :
    (Reachable qFull0a ∧
      (acceptApplicant qFull0 1).1 = .accepted ∧
      qFull0a.status ≠ some "COMPLETED".data ∧
      qFull0a.status ≠ some "CANCELLED".data ∧
      ¬(qFull0a.status = some "FULL".data ↔
          (0 < qFull0a.max_players ∧ qFull0a.max_players ≤ qFull0a.roster.length))) ∧
    (Reachable qOverL ∧
      (leaveQuest qOver 1).1 = .left ∧
      qOverL.status ≠ some "COMPLETED".data ∧
      qOverL.status ≠ some "CANCELLED".data ∧
      ¬(qOverL.status = some "FULL".data ↔
          (0 < qOverL.max_players ∧ qOverL.max_players ≤ qOverL.roster.length))) := by
  refine ⟨⟨?_, by decide, by decide, by decide, by decide⟩,
    ⟨?_, by decide, by decide, by decide, by decide⟩⟩
  · exact Reachable.accept _ 1 (Reachable.created 0 0 0 _ none 0 none)
  · exact Reachable.leave _ 1
      (Reachable.update _ true (some "full".data) none none none (some 1)
        (Reachable.accept _ 2
          (Reachable.accept _ 1 (Reachable.created 0 0 0 _ none 0 none))))

/-- Claim C1 (amended): for every quest record satisfying the data-model
invariants before the operation — status FULL iff `max_players > 0` and
`len(roster) >= max_players` unless independently marked
COMPLETED/CANCELLED (`fullInv`), and `len(roster) <= max_players` whenever
`max_players > 0` (`capInv`) — every roster-mutating operation (accepting
an applicant, a member leaving, an organizer kicking a member)
re-establishes both invariants, on success and rejection paths alike.
Without those preconditions the claim fails on reachable records, as the
counterexample shows. -/
theorem c1_full_iff_capacity (q : Quest) (a m u : Nat)
    (h1 : fullInv q) (h2 : capInv q) :
    (fullInv (acceptApplicant q a).2 ∧ capInv (acceptApplicant q a).2) ∧
    (fullInv (leaveQuest q u).2 ∧ capInv (leaveQuest q u).2) ∧
    (fullInv (kickUser q (m == 1) u).2 ∧ capInv (kickUser q (m == 1) u).2) :=
  ⟨accept_preserves q a h1 h2, leave_preserves q u h1 h2,
    kick_preserves q (m == 1) u h1 h2⟩

/-- Witness for C1 at a concrete quest. -/
theorem c1_full_iff_capacity_witness :
    fullInv qCap1 ∧ capInv qCap1 ∧
      (fullInv (acceptApplicant qCap1 3).2 ∧ capInv (acceptApplicant qCap1 3).2) :=
  ⟨by decide, by decide, (c1_full_iff_capacity qCap1 3 0 4 (by decide) (by decide)).1⟩

/-- Claim C2 counterexample: The claim says that a join attempt on a full
one-seat quest appends the actor to the waitlist.  In the code the only
roster-adding operation is the organizer's Accept, and on a full roster it
rejects without touching the waitlist: after user 1 fills `qCap1`, accepting
user 2 is rejected and the waitlist stays `[]`, not `[2]`. -/
theorem c2_join_counterexample :
    (acceptApplicant qCap1 1).2.roster = [1] ∧
    (acceptApplicant qCap1 1).2.status = some "FULL".data ∧
    (acceptApplicant (acceptApplicant qCap1 1).2 2).1 = .rosterFull ∧
    (acceptApplicant (acceptApplicant qCap1 1).2 2).2.waitlist = [] ∧
    (acceptApplicant (acceptApplicant qCap1 1).2 2).2.waitlist ≠ [2] := by
  decide

/-- Claim C2 (amended): Accepting an applicant not yet on the roster appends
them to the roster when capacity remains (unlimited or below max), marking
FULL when capacity is then exhausted; when the roster is at capacity the
accept is rejected and the record — waitlist included — is left unchanged.
Nothing is ever appended to the waitlist. -/
theorem c2_join_behaviour (q : Quest) (a : Nat) (ha : a ∉ q.roster) :
    (¬(q.max_players ≠ 0 ∧ q.max_players ≤ q.roster.length) →
      (acceptApplicant q a).1 = .accepted ∧
      (acceptApplicant q a).2.roster = q.roster ++ [a] ∧
      (acceptApplicant q a).2.waitlist = q.waitlist ∧
      ((q.max_players ≠ 0 ∧ q.max_players ≤ q.roster.length + 1) →
        (acceptApplicant q a).2.status = some "FULL".data)) ∧
    ((q.max_players ≠ 0 ∧ q.max_players ≤ q.roster.length) →
      acceptApplicant q a = (.rosterFull, q)) := by
  constructor
  · intro hcap
    rw [acceptApplicant, if_neg ha, if_neg hcap]
    refine ⟨rfl, rfl, rfl, fun hful => ?_⟩
    have hc : q.max_players ≠ 0 ∧ q.max_players ≤ (q.roster ++ [a]).length := by
      simpa using hful
    rw [if_pos hc]
  · intro hcap
    rw [acceptApplicant, if_neg ha, if_pos hcap]

/-- Witness for C2 (amended): user 2 is rejected on the full one-seat quest. -/
theorem c2_join_behaviour_witness :
    acceptApplicant (acceptApplicant qCap1 1).2 2 =
      (.rosterFull, (acceptApplicant qCap1 1).2) :=
  (c2_join_behaviour (acceptApplicant qCap1 1).2 2 (by decide)).2 (by decide)

/-- Claim C3 counterexample: The claim says Leave also removes a user from the
waitlist and promotes the waitlist head on roster removal.  On `qFullW`
(roster `[1]`, waitlist `[2]`, one seat, FULL): when user 1 leaves, the code
leaves the waitlist untouched (`[2]`) and the roster empty — no promotion —
and user 2, present only on the waitlist, is rejected with "not on roster". -/
theorem c3_leave_counterexample :
    (leaveQuest qFullW 1).1 = .left ∧
    (leaveQuest qFullW 1).2.roster = [] ∧
    (leaveQuest qFullW 1).2.waitlist = [2] ∧
    (leaveQuest qFullW 2).1 = .notOnRoster ∧
    (leaveQuest qFullW 2).2 = qFullW := by
  decide

/-- Claim C3 (amended): Leave removes the actor from the roster when present
and is rejected otherwise (a user only on the waitlist cannot leave); the
waitlist is never modified and no promotion occurs; on every successful
leave a FULL status becomes RECRUITING unconditionally (even if capacity
would still be exhausted), and any other status is kept. -/
theorem c3_leave_behaviour (q : Quest) (u : Nat) :
    (u ∈ q.roster →
      (leaveQuest q u).1 = .left ∧
      (leaveQuest q u).2.roster = q.roster.erase u ∧
      (leaveQuest q u).2.waitlist = q.waitlist ∧
      (q.status = some "FULL".data →
        (leaveQuest q u).2.status = some "RECRUITING".data) ∧
      (q.status ≠ some "FULL".data → (leaveQuest q u).2.status = q.status)) ∧
    (u ∉ q.roster → leaveQuest q u = (.notOnRoster, q)) := by
  constructor
  · intro hm
    rw [leaveQuest, if_pos hm]
    refine ⟨rfl, rfl, rfl, fun hf => ?_, fun hf => ?_⟩
    · simp [hf]
    · simp [hf]
  · intro hm
    rw [leaveQuest, if_neg hm]

/-- Witness for C3 (amended) at `qFullW`. -/
theorem c3_leave_behaviour_witness :
    (leaveQuest qFullW 1).1 = .left ∧
    (leaveQuest qFullW 1).2.waitlist = qFullW.waitlist :=
  ⟨((c3_leave_behaviour qFullW 1).1 (by decide)).1,
    ((c3_leave_behaviour qFullW 1).1 (by decide)).2.2.1⟩

/-- Claim C7: Deleting an existing quest (with its embed/thread identifiers
set) removes the record from the store for every outcome — success or
failure — of the best-effort external embed-update and thread-rename calls. -/
theorem c7_delete_absent (doc : StoreDoc) (qid : List Char) (q : Quest)
    (hq : get_quest doc qid = some q) (embedOk threadOk : Bool) :
    (quest_delete doc qid true embedOk threadOk).1 = .deleted ∧
    ((get_all_quests (quest_delete doc qid true embedOk threadOk).2).lookup qid
      = none) := by
  unfold quest_delete
  rw [hq]
  exact ⟨rfl, lookup_filter_ne doc.quests qid⟩

/-- Witness for C7: deleting the stored quest of `docOne` while both
external calls fail still removes the record. -/
theorem c7_delete_absent_witness :
    (quest_delete docOne "010125-0001".data true false false).1 = .deleted ∧
    ((get_all_quests (quest_delete docOne "010125-0001".data true false false).2).lookup
      "010125-0001".data = none) :=
  c7_delete_absent docOne "010125-0001".data qFullW (by decide) false false

/-- Claim C8: Every user-error rejection path leaves the stored quest record
unchanged: a rejected accept (not found / already on roster / roster full),
a rejected leave, a rejected kick (not found / not authorized / not on
roster) do not write to the store, and the moderated apply never writes to
the quest store at all. -/
theorem c8_rejection_no_mutation (doc : StoreDoc) (qid : List Char)
    (a u : Nat) (isM : Bool) (times : List Nat) (now : Nat) :
    ((acceptOp doc qid a).1 ≠ .accepted → (acceptOp doc qid a).2 = doc) ∧
    ((leaveOp doc qid u).1 ≠ .left → (leaveOp doc qid u).2 = doc) ∧
    ((kickOp doc qid isM u).1 ≠ .kicked → (kickOp doc qid isM u).2 = doc) ∧
    (applyOp doc qid u times now).2.1 = doc := by
  refine ⟨?_, ?_, ?_, ?_⟩
  · intro h
    unfold acceptOp at h ⊢
    cases hq : get_quest doc qid with
    | none => rfl
    | some q =>
      rw [hq] at h
      dsimp only at h ⊢
      by_cases hr : (acceptApplicant q a).1 = .accepted
      · rw [if_pos hr] at h
        exact absurd hr h
      · rw [if_neg hr]
  · intro h
    unfold leaveOp at h ⊢
    cases hq : get_quest doc qid with
    | none => rfl
    | some q =>
      rw [hq] at h
      dsimp only at h ⊢
      by_cases hr : (leaveQuest q u).1 = .left
      · rw [if_pos hr] at h
        exact absurd hr h
      · rw [if_neg hr]
  · intro h
    unfold kickOp at h ⊢
    cases hq : get_quest doc qid with
    | none => rfl
    | some q =>
      rw [hq] at h
      dsimp only at h ⊢
      by_cases hr : (kickUser q isM u).1 = .kicked
      · rw [if_pos hr] at h
        exact absurd hr h
      · rw [if_neg hr]
  · unfold applyOp
    cases hq : get_quest doc qid with
    | none => rfl
    | some q =>
      dsimp only
      by_cases h1 : q.status = some "COMPLETED".data ∨ q.status = some "CANCELLED".data
      · rw [if_pos h1]
      · rw [if_neg h1]
        by_cases h2 : u = q.dm_id
        · rw [if_pos h2]
        · rw [if_neg h2]
          by_cases h3 : u ∈ q.roster
          · rw [if_pos h3]
          · rw [if_neg h3]
            by_cases h4 : (check_apply_rate now times).1.1 = true
            · rw [if_pos h4]
            · rw [if_neg h4]

/-- Witness for C8: a rejected accept on the already-full stored quest of
`docOne` leaves the store unchanged. -/
theorem c8_rejection_no_mutation_witness :
    (acceptOp docOne "010125-0001".data 3).1 ≠ .accepted ∧
    (acceptOp docOne "010125-0001".data 3).2 = docOne :=
  ⟨by decide,
    (c8_rejection_no_mutation docOne "010125-0001".data 3 0 true [] 0).1 (by decide)⟩

/-- Claim C10: Every quest is created with an empty waitlist and no operation
ever appends to it: every reachable quest record has `waitlist = []`. -/
theorem c10_waitlist_always_empty (q : Quest) (h : Reachable q) :
    q.waitlist = [] := by
  induction h with
  | created guild thread dm parsed system mp ech => rfl
  | accept q a _ ih =>
    unfold acceptApplicant
    split_ifs <;> simpa using ih
  | leave q u _ ih =>
    unfold leaveQuest
    split_ifs <;> simpa using ih
  | kick q m u _ ih =>
    unfold kickUser
    split_ifs <;> simpa using ih
  | set_st q m s _ ih =>
    unfold setStatusOp
    split_ifs <;> simpa using ih
  | update q m st mo qt sy mp _ ih =>
    unfold updateQuest
    split_ifs <;> simpa using ih
  | reembed q e1 e2 mp _ ih => simpa using ih
  | system_unknown q _ ih => simpa using ih

/-- Witness for C10 at a freshly created quest. -/
theorem c10_waitlist_always_empty_witness :
    (mkQuest 1 2 3 ⟨none, none, none, none, "T".data⟩ none 4 none).waitlist = [] :=
  c10_waitlist_always_empty _ (Reachable.created 1 2 3 ⟨none, none, none, none, "T".data⟩ none 4 none)

/-- Pruning at a later time subsumes pruning at an earlier time. -/
theorem filter_window_trans (A : List Nat) (now0 now : Nat)
    (hA : ∀ t ∈ A, t ≤ now0) (h01 : now0 ≤ now) :
    (A.filter (fun t => now0 - t < APPLICATION_WINDOW)).filter
        (fun t => now - t < APPLICATION_WINDOW)
      = A.filter (fun t => now - t < APPLICATION_WINDOW) := by
  rw [List.filter_filter]
  apply List.filter_congr
  intro t ht
  have h1 := hA t ht
  by_cases hw : now - t < APPLICATION_WINDOW
  · have hw0 : now0 - t < APPLICATION_WINDOW := by omega
    simp [hw, hw0]
  · simp [hw]

/-- The rate limiter agrees with the claim-side reference: starting from a
stored list that holds exactly the in-window allowed attempts, every later
decision matches `claimDecisions`. -/
theorem rate_trace (as : List Nat) : ∀ (A : List Nat) (now0 : Nat),
    (∀ t ∈ A, t ≤ now0) → List.Chain (· ≤ ·) now0 as →
    rateDecisions (A.filter (fun t => now0 - t < APPLICATION_WINDOW)) as
      = claimDecisions A as := by
  induction as with
  | nil => intro A now0 _ _; rfl
  | cons now rest ih =>
    intro A now0 hA hchain
    rw [List.chain_cons] at hchain
    obtain ⟨h01, hch⟩ := hchain
    have hA2 : ∀ t ∈ A, t ≤ now := fun t ht => le_trans (hA t ht) h01
    have hfilter := filter_window_trans A now0 now hA h01
    simp only [rateDecisions, claimDecisions]
    unfold check_apply_rate
    rw [hfilter]
    by_cases hlen :
        APPLICATION_LIMIT ≤ (A.filter (fun t => now - t < APPLICATION_WINDOW)).length
    · rw [if_pos hlen, if_neg (Nat.not_lt.mpr hlen)]
      exact congrArg _ (ih A now hA2 hch)
    · rw [if_neg hlen, if_pos (Nat.not_le.mp hlen)]
      refine congrArg _ ?_
      have hstep :
          A.filter (fun t => now - t < APPLICATION_WINDOW) ++ [now]
            = (A ++ [now]).filter (fun t => now - t < APPLICATION_WINDOW) := by
        rw [List.filter_append]
        have h1 : (([now] : List Nat).filter (fun t => now - t < APPLICATION_WINDOW)) = [now] := by
          simp [APPLICATION_WINDOW]
        rw [h1]
      have hA3 : ∀ t ∈ A ++ [now], t ≤ now := by
        intro t ht
        rcases List.mem_append.mp ht with ht | ht
        · exact hA2 t ht
        · simp at ht
          omega
      rw [hstep]
      exact ih (A ++ [now]) now hA3 hch

/-- Claim C4: The per-`(applicant, quest)` rate limit: starting from a fresh
key, a monotone sequence of attempts is allowed exactly when fewer than 3
allowed attempts fall within the rolling 3600-second window ending at the
attempt's time (old timestamps pruned before counting); a rejected attempt
stores nothing beyond the pruning; a rejection reports
`3600 - (now - oldest in-window timestamp)`; and concretely, a 4th attempt
after 3 in-window applications is rejected while an attempt after the
window has passed succeeds. -/
theorem c4_rate_limit :
    (∀ as : List Nat, as.Chain' (· ≤ ·) →
        rateDecisions [] as = claimDecisions [] as) ∧
    (∀ now times, (check_apply_rate now times).1.1 = false →
        (check_apply_rate now times).2 =
          times.filter (fun t => now - t < APPLICATION_WINDOW)) ∧
    (∀ now times, (check_apply_rate now times).1.1 = false →
        (check_apply_rate now times).1.2 =
          APPLICATION_WINDOW -
            (now - (times.filter (fun t => now - t < APPLICATION_WINDOW)).headD 0)) ∧
    rateDecisions [] [0, 10, 20, 30, 3610] = [true, true, true, false, true] := by
  refine ⟨?_, ?_, ?_, by decide⟩
  · intro as hmono
    cases as with
    | nil => rfl
    | cons a rest =>
      exact rate_trace (a :: rest) [] 0 (by simp)
        (List.chain_cons.mpr ⟨Nat.zero_le a, hmono⟩)
  · intro now times h
    unfold check_apply_rate at h ⊢
    by_cases hlen :
        APPLICATION_LIMIT ≤ (times.filter (fun t => now - t < APPLICATION_WINDOW)).length
    · rw [if_pos hlen]
    · rw [if_neg hlen] at h
      simp at h
  · intro now times h
    unfold check_apply_rate at h ⊢
    by_cases hlen :
        APPLICATION_LIMIT ≤ (times.filter (fun t => now - t < APPLICATION_WINDOW)).length
    · rw [if_pos hlen]
    · rw [if_neg hlen] at h
      simp at h

/-- Witness for C4 on a concrete monotone attempt sequence. -/
theorem c4_rate_limit_witness :
    rateDecisions [] [5, 6, 7, 8] = claimDecisions [] [5, 6, 7, 8] :=
  c4_rate_limit.1 [5, 6, 7, 8] (by simp [List.chain'_cons])

/-! ### Association-list lemmas for the daily counter -/

theorem lookup_setA_self {α : Type} (k : List Char) (v : α)
    (l : List (List Char × α)) : (setA k v l).lookup k = some v := by
  induction l with
  | nil => simp [setA, List.lookup]
  | cons p rest ih =>
    obtain ⟨k2, v2⟩ := p
    by_cases h : k2 = k
    · rw [setA, if_pos h]
      simp [List.lookup]
    · rw [setA, if_neg h]
      have hb : (k == k2) = false := beq_eq_false_iff_ne.mpr (fun he => h he.symm)
      simp only [List.lookup, hb]
      exact ih

theorem lookup_setA_ne {α : Type} (k k2 : List Char) (v : α)
    (l : List (List Char × α)) (hne : k2 ≠ k) :
    (setA k v l).lookup k2 = l.lookup k2 := by
  induction l with
  | nil =>
    have hb : (k2 == k) = false := beq_eq_false_iff_ne.mpr hne
    simp [setA, List.lookup, hb]
  | cons p rest ih =>
    obtain ⟨k3, v3⟩ := p
    by_cases h : k3 = k
    · rw [setA, if_pos h]
      have hb : (k2 == k) = false := beq_eq_false_iff_ne.mpr hne
      have hb3 : (k2 == k3) = false := beq_eq_false_iff_ne.mpr (h ▸ hne)
      simp only [List.lookup, hb, hb3]
    · rw [setA, if_neg h]
      simp only [List.lookup]
      cases hbe : (k2 == k3) with
      | true => rfl
      | false => exact ih

/-- Claim C6: `generate_quest_id`: the per-day counter is bumped by exactly 1
and persisted in the saved document (and untouched by calls under another
day key), the id is the day key plus the 4-zero-padded decimal counter,
two same-day calls produce consecutive suffixes (strictly increasing by 1),
a fresh day key restarts the suffix at `0001`, and the suffix has exactly
4 digits while the counter stays below 10000. -/
theorem c6_quest_id_generation (doc : StoreDoc) (k k2 : List Char)
    (hk2 : k2 ≠ k) (hfresh : doc.daily_counter.lookup k2 = none) :
    ((generate_quest_id doc k).2.daily_counter.lookup k
        = some ((doc.daily_counter.lookup k).getD 0 + 1)) ∧
    ((generate_quest_id doc k).1
        = k ++ '-' :: zfill4 (Nat.repr ((doc.daily_counter.lookup k).getD 0 + 1)).data) ∧
    ((generate_quest_id (generate_quest_id doc k).2 k).1
        = k ++ '-' :: zfill4 (Nat.repr ((doc.daily_counter.lookup k).getD 0 + 2)).data) ∧
    ((generate_quest_id doc k2).1 = k2 ++ "-0001".data) ∧
    ((generate_quest_id doc k2).2.daily_counter.lookup k = doc.daily_counter.lookup k) ∧
    (∀ n, n < 10000 → (zfill4 (Nat.repr n).data).length = 4) := by
  refine ⟨?_, rfl, ?_, ?_, ?_, ?_⟩
  · exact lookup_setA_self k _ doc.daily_counter
  · show (generate_quest_id { doc with
        daily_counter := setA k ((doc.daily_counter.lookup k).getD 0 + 1) doc.daily_counter } k).1 = _
    unfold generate_quest_id
    rw [lookup_setA_self]
    rfl
  · unfold generate_quest_id
    rw [hfresh]
    rfl
  · exact lookup_setA_ne k2 k _ doc.daily_counter (fun he => hk2 he.symm)
  · intro n hn
    have hlen : (Nat.repr n).length ≤ 4 :=
      Nat.repr_length n 4 (by norm_num) (by norm_num; omega)
    have hdata : (Nat.repr n).data.length ≤ 4 := hlen
    rw [zfill4, List.length_append, List.length_replicate]
    omega

/-- Witness for C6 on the concrete store `docOne` (counter for day
`010125` is 1, day `020125` is fresh). -/
theorem c6_quest_id_generation_witness :
    ((generate_quest_id docOne "010125".data).2.daily_counter.lookup "010125".data
      = some 2) ∧
    (generate_quest_id docOne "020125".data).1 = "020125-0001".data := by
  have h := c6_quest_id_generation docOne "010125".data "020125".data
    (by decide) (by decide)
  exact ⟨h.1, h.2.2.2.1⟩

/-! ### Character lemmas for the ASCII upper-case model -/

theorem char_eq_iff_toNat (c d : Char) : c = d ↔ c.toNat = d.toNat := by
  constructor
  · intro h; rw [h]
  · intro h
    have hc := Char.ofNat_toNat c
    rw [h, Char.ofNat_toNat d] at hc
    exact hc.symm

theorem toNat_ofNat_small (n : Nat) (h : n < 55296) : (Char.ofNat n).toNat = n := by
  unfold Char.ofNat
  rw [dif_pos (Or.inl h)]
  rfl

theorem toNat_upChar_lower (c : Char) (h : 97 ≤ c.toNat ∧ c.toNat ≤ 122) :
    (upChar c).toNat = c.toNat - 32 := by
  rw [upChar, if_pos h]
  exact toNat_ofNat_small _ (by omega)

theorem isWhitespace_iff (c : Char) :
    c.isWhitespace = true ↔
      c.toNat = 32 ∨ c.toNat = 9 ∨ c.toNat = 13 ∨ c.toNat = 10 := by
  unfold Char.isWhitespace
  simp only [Bool.or_eq_true, decide_eq_true_eq, char_eq_iff_toNat,
    show (' ' : Char).toNat = 32 from rfl, show ('\t' : Char).toNat = 9 from rfl,
    show ('\r' : Char).toNat = 13 from rfl, show ('\n' : Char).toNat = 10 from rfl]
  tauto

theorem isWhitespace_upChar (c : Char) :
    (upChar c).isWhitespace = c.isWhitespace := by
  by_cases h : 97 ≤ c.toNat ∧ c.toNat ≤ 122
  · have h1 := toNat_upChar_lower c h
    have h2 : (upChar c).isWhitespace = false := by
      rw [← Bool.not_eq_true, isWhitespace_iff, h1]
      omega
    have h3 : c.isWhitespace = false := by
      rw [← Bool.not_eq_true, isWhitespace_iff]
      omega
    rw [h2, h3]
  · rw [upChar, if_neg h]

theorem upChar_idem (c : Char) : upChar (upChar c) = upChar c := by
  by_cases h : 97 ≤ c.toNat ∧ c.toNat ≤ 122
  · have h1 := toNat_upChar_lower c h
    have h2 : ¬(97 ≤ (upChar c).toNat ∧ (upChar c).toNat ≤ 122) := by
      rw [h1]; omega
    exact if_neg h2
  · have h2 : upChar c = c := if_neg h
    rw [h2]
    exact h2

theorem upChar_ne_rbracket (c : Char) (h : c ≠ ']') : upChar c ≠ ']' := by
  by_cases hc : 97 ≤ c.toNat ∧ c.toNat ≤ 122
  · intro he
    have h2 : (upChar c).toNat = 93 := by rw [he]; rfl
    rw [toNat_upChar_lower c hc] at h2
    omega
  · have h2 : upChar c = c := if_neg hc
    rwa [h2]

/-! ### `pupper` and `pstrip` lemmas -/

theorem pupper_idem (l : List Char) : pupper (pupper l) = pupper l := by
  unfold pupper
  rw [List.map_map]
  exact List.map_congr_left fun c _ => upChar_idem c

theorem mem_pupper_rbracket (l : List Char) (h : ']' ∉ l) : ']' ∉ pupper l := by
  unfold pupper
  intro hm
  obtain ⟨c, hc, he⟩ := List.mem_map.mp hm
  exact upChar_ne_rbracket c (fun hce => h (hce ▸ hc)) he

theorem dropWhile_pupper (l : List Char) :
    (pupper l).dropWhile Char.isWhitespace
      = pupper (l.dropWhile Char.isWhitespace) := by
  induction l with
  | nil => rfl
  | cons c rest ih =>
    simp only [pupper, List.map_cons, List.dropWhile_cons, isWhitespace_upChar]
    by_cases h : c.isWhitespace = true
    · rw [if_pos h, if_pos h]
      exact ih
    · rw [if_neg h, if_neg h]
      rfl

theorem reverse_pupper (l : List Char) : (pupper l).reverse = pupper l.reverse := by
  unfold pupper
  exact (List.map_reverse upChar l).symm

theorem pstrip_pupper (l : List Char) : pstrip (pupper l) = pupper (pstrip l) := by
  unfold pstrip
  rw [dropWhile_pupper, reverse_pupper, dropWhile_pupper, reverse_pupper]

/-! ### `pstrip` structure lemmas -/

theorem length_dropWhile_le2 (p : Char → Bool) (m : List Char) :
    (m.dropWhile p).length ≤ m.length := by
  induction m with
  | nil => simp
  | cons c rest ih =>
    rw [List.dropWhile_cons]
    by_cases h : p c = true
    · rw [if_pos h]
      simp only [List.length_cons]
      omega
    · rw [if_neg h]

/-- The part `dropWhile` keeps starts with its strip. -/
theorem dropL_eq_pstrip_append (l : List Char) :
    l.dropWhile Char.isWhitespace
      = pstrip l ++
        ((l.dropWhile Char.isWhitespace).reverse.takeWhile Char.isWhitespace).reverse := by
  unfold pstrip
  calc l.dropWhile Char.isWhitespace
      = (l.dropWhile Char.isWhitespace).reverse.reverse := (List.reverse_reverse _).symm
    _ = (((l.dropWhile Char.isWhitespace).reverse.takeWhile Char.isWhitespace) ++
          ((l.dropWhile Char.isWhitespace).reverse.dropWhile Char.isWhitespace)).reverse := by
        rw [List.takeWhile_append_dropWhile]
    _ = _ := by
        rw [List.reverse_append]

/-- A list splits as its strip plus whitespace margins. -/
theorem pstrip_parts (l : List Char) :
    l = l.takeWhile Char.isWhitespace ++ pstrip l ++
        ((l.dropWhile Char.isWhitespace).reverse.takeWhile Char.isWhitespace).reverse := by
  conv_lhs => rw [← List.takeWhile_append_dropWhile Char.isWhitespace l]
  rw [List.append_assoc]
  congr 1
  exact dropL_eq_pstrip_append l

theorem dropWhile_head_not (p : Char → Bool) (l : List Char)
    (h : l.dropWhile p = l) (c : Char) (m : List Char) (hcm : l = c :: m) :
    p c = false := by
  subst hcm
  by_cases hp : p c = true
  · rw [List.dropWhile_cons, if_pos hp] at h
    have hle := length_dropWhile_le2 p m
    rw [h] at hle
    simp only [List.length_cons] at hle
    omega
  · simpa using hp

theorem dropWhile_pstrip (l : List Char) :
    (pstrip l).dropWhile Char.isWhitespace = pstrip l := by
  cases hps : pstrip l with
  | nil => rfl
  | cons c m =>
    have hidem : (l.dropWhile Char.isWhitespace).dropWhile Char.isWhitespace
        = l.dropWhile Char.isWhitespace := List.dropWhile_idempotent _ _
    have hn := dropL_eq_pstrip_append l
    rw [hps, List.cons_append] at hn
    have hc : c.isWhitespace = false :=
      dropWhile_head_not Char.isWhitespace (l.dropWhile Char.isWhitespace) hidem c _ hn
    rw [List.dropWhile_cons, if_neg (by simp [hc])]

theorem reverse_pstrip_clean (l : List Char) :
    (pstrip l).reverse.dropWhile Char.isWhitespace = (pstrip l).reverse := by
  have h : (pstrip l).reverse
      = (l.dropWhile Char.isWhitespace).reverse.dropWhile Char.isWhitespace := by
    show ((((l.dropWhile Char.isWhitespace).reverse.dropWhile
        Char.isWhitespace).reverse).reverse) = _
    rw [List.reverse_reverse]
  rw [h]
  exact List.dropWhile_idempotent _ _

theorem pstrip_idem (l : List Char) : pstrip (pstrip l) = pstrip l := by
  show (((pstrip l).dropWhile Char.isWhitespace).reverse.dropWhile
      Char.isWhitespace).reverse = pstrip l
  rw [dropWhile_pstrip, reverse_pstrip_clean]
  exact List.reverse_reverse _

theorem pstrip_replicate_space (n : Nat) (l : List Char) :
    pstrip (List.replicate n ' ' ++ l) = pstrip l := by
  induction n with
  | zero => rfl
  | succ k ih =>
    show pstrip (' ' :: (List.replicate k ' ' ++ l)) = pstrip l
    unfold pstrip
    rw [List.dropWhile_cons, if_pos (by decide)]
    exact ih

theorem pstrip_sublist (l : List Char) : List.Sublist (pstrip l) l := by
  have h1 : List.Sublist (pstrip l) (l.takeWhile Char.isWhitespace ++ pstrip l) :=
    List.sublist_append_right _ _
  have h2 : List.Sublist (l.takeWhile Char.isWhitespace ++ pstrip l)
      ((l.takeWhile Char.isWhitespace ++ pstrip l) ++
        ((l.dropWhile Char.isWhitespace).reverse.takeWhile Char.isWhitespace).reverse) :=
    List.sublist_append_left _ _
  conv_rhs => rw [pstrip_parts l]
  exact h1.trans h2

theorem mem_pstrip {x : Char} {l : List Char} (hx : x ∈ pstrip l) : x ∈ l :=
  (pstrip_sublist l).subset hx

/-! ### Scanner lemmas -/

theorem scan_lbr (rest : List Char) :
    scanCore ('[' :: rest) none = scanCore rest (some []) := rfl

theorem scan_rbr_nil (rest : List Char) :
    scanCore (']' :: rest) (some [])
      = ((scanCore rest none).1, '[' :: ']' :: (scanCore rest none).2) := rfl

theorem scan_rbr_cons (rest b : List Char) (hb : b ≠ []) :
    scanCore (']' :: rest) (some b)
      = (b :: (scanCore rest none).1, (scanCore rest none).2) := by
  cases b with
  | nil => exact absurd rfl hb
  | cons x b2 => rfl

theorem scan_acc (c : Char) (rest b : List Char) (hc : c ≠ ']') :
    scanCore (c :: rest) (some b) = scanCore rest (some (b ++ [c])) := by
  simp only [scanCore, if_neg hc]

theorem scan_cons_other (c : Char) (rest : List Char) (h : c ≠ '[') :
    scanCore (c :: rest) none
      = ((scanCore rest none).1, c :: (scanCore rest none).2) := by
  simp only [scanCore, if_neg h]

theorem scan_open_noclose (rest : List Char) :
    ∀ b : List Char, ']' ∉ rest →
      scanCore rest (some b) = ([], '[' :: (b ++ rest)) := by
  induction rest with
  | nil =>
    intro b _
    rw [List.append_nil]
    rfl
  | cons c m ih =>
    intro b hm
    have hc : c ≠ ']' := fun he => hm (he ▸ List.mem_cons_self c m)
    have hm2 : ']' ∉ m := fun hx => hm (List.mem_cons_of_mem c hx)
    rw [scan_acc c m b hc, ih (b ++ [c]) hm2]
    simp [List.append_assoc]

theorem scan_tag_core (w : List Char) :
    ∀ (rest b : List Char), ']' ∉ w → b ++ w ≠ [] →
      scanCore (w ++ ']' :: rest) (some b)
        = ((b ++ w) :: (scanCore rest none).1, (scanCore rest none).2) := by
  induction w with
  | nil =>
    intro rest b _ hb
    rw [List.append_nil] at hb ⊢
    rw [List.nil_append]
    exact scan_rbr_cons rest b hb
  | cons c w2 ih =>
    intro rest b hw _
    have hc : c ≠ ']' := fun he => hw (he ▸ List.mem_cons_self c w2)
    have hw2 : ']' ∉ w2 := fun hx => hw (List.mem_cons_of_mem c hx)
    rw [List.cons_append, scan_acc c _ b hc, ih rest (b ++ [c]) hw2 (by simp)]
    simp [List.append_assoc]

theorem scanB_tag (w rest : List Char) (hw : ']' ∉ w) (hne : w ≠ []) :
    scanB ('[' :: (w ++ ']' :: rest))
      = (w :: (scanB rest).1, (scanB rest).2) := by
  unfold scanB
  rw [scan_lbr, scan_tag_core w rest [] hw (by simpa using hne)]
  rw [List.nil_append]

/-- When scanning produces no token, the remainder is the input itself
(prefixed by the reopened bracket in accumulating mode). -/
theorem scanCore_noTok (l : List Char) :
    ((scanCore l none).1 = [] → (scanCore l none).2 = l) ∧
    (∀ b, (scanCore l (some b)).1 = [] →
      (scanCore l (some b)).2 = '[' :: (b ++ l)) := by
  induction l with
  | nil =>
    refine ⟨fun _ => rfl, fun b _ => ?_⟩
    rw [List.append_nil]
    rfl
  | cons c rest ih =>
    constructor
    · by_cases hc : c = '['
      · subst hc
        intro h
        rw [scan_lbr] at h ⊢
        simpa using ih.2 [] h
      · intro h
        rw [scan_cons_other c rest hc] at h ⊢
        rw [ih.1 h]
    · intro b
      by_cases hc : c = ']'
      · subst hc
        by_cases hb : b = []
        · subst hb
          intro h
          rw [scan_rbr_nil] at h ⊢
          rw [ih.1 h]
          rfl
        · intro h
          rw [scan_rbr_cons rest b hb] at h
          simp at h
      · intro h
        rw [scan_acc c rest b hc] at h ⊢
        rw [ih.2 (b ++ [c]) h]
        simp [List.append_assoc]

/-- Scanner tokens are non-empty and `]`-free, and the remainder rescans to
no token at all. -/
theorem scanCore_props (l : List Char) :
    ((∀ t ∈ (scanCore l none).1, t ≠ [] ∧ ']' ∉ t) ∧
      (scanB ((scanCore l none).2)).1 = []) ∧
    (∀ b, ']' ∉ b →
      (∀ t ∈ (scanCore l (some b)).1, t ≠ [] ∧ ']' ∉ t) ∧
      (scanB ((scanCore l (some b)).2)).1 = []) := by
  induction l with
  | nil =>
    refine ⟨⟨by simp [scanCore], by simp [scanCore, scanB]⟩,
      fun b hb => ⟨by simp [scanCore], ?_⟩⟩
    show (scanB ('[' :: b)).1 = []
    unfold scanB
    rw [scan_lbr, scan_open_noclose b [] hb]
  | cons c rest ih =>
    constructor
    · by_cases hc : c = '['
      · subst hc
        have h2 := ih.2 [] (by simp)
        constructor
        · rw [scan_lbr]
          exact h2.1
        · rw [scan_lbr]
          exact h2.2
      · rw [scan_cons_other c rest hc]
        refine ⟨ih.1.1, ?_⟩
        show (scanB (c :: (scanCore rest none).2)).1 = []
        unfold scanB
        rw [scan_cons_other c _ hc]
        exact ih.1.2
    · intro b hb
      by_cases hc : c = ']'
      · subst hc
        by_cases hbe : b = []
        · subst hbe
          rw [scan_rbr_nil]
          refine ⟨ih.1.1, ?_⟩
          show (scanB ('[' :: ']' :: (scanCore rest none).2)).1 = []
          unfold scanB
          rw [scan_lbr, scan_rbr_nil]
          exact ih.1.2
        · rw [scan_rbr_cons rest b hbe]
          refine ⟨?_, ih.1.2⟩
          intro t ht
          rcases List.mem_cons.mp ht with ht | ht
          · exact ht ▸ ⟨hbe, hb⟩
          · exact ih.1.1 t ht
      · rw [scan_acc c rest b hc]
        exact ih.2 (b ++ [c]) (by
          intro hx
          rcases List.mem_append.mp hx with hx | hx
          · exact hb hx
          · simp at hx
            exact hc hx.symm)

theorem matchable_cons (c : Char) (l : List Char) (h : Matchable l) :
    Matchable (c :: l) := by
  obtain ⟨x, y, z, he, hy, hz⟩ := h
  exact ⟨c :: x, y, z, by rw [he]; rfl, hy, hz⟩

theorem matchable_ext (s m t : List Char) (h : Matchable m) :
    Matchable (s ++ m ++ t) := by
  obtain ⟨x, y, z, he, hy, hz⟩ := h
  refine ⟨s ++ x, y, z ++ t, ?_, hy, hz⟩
  rw [he]
  simp [List.append_assoc]

/-- Tokens found means a bracket match exists in the input. -/
theorem scanCore_tok_matchable (l : List Char) :
    ((scanCore l none).1 ≠ [] → Matchable l) ∧
    (∀ b, ']' ∉ b → (scanCore l (some b)).1 ≠ [] → Matchable ('[' :: (b ++ l))) := by
  induction l with
  | nil =>
    exact ⟨fun h => absurd rfl h, fun b _ h => absurd rfl h⟩
  | cons c rest ih =>
    constructor
    · by_cases hc : c = '['
      · subst hc
        intro h
        rw [scan_lbr] at h
        simpa using ih.2 [] (by simp) h
      · intro h
        rw [scan_cons_other c rest hc] at h
        exact matchable_cons c rest (ih.1 h)
    · intro b hb
      by_cases hc : c = ']'
      · subst hc
        by_cases hbe : b = []
        · subst hbe
          intro h
          rw [scan_rbr_nil] at h
          simpa using matchable_cons '[' _ (matchable_cons ']' rest (ih.1 h))
        · intro _
          exact ⟨[], b, rest, by simp, hbe, hb⟩
      · intro h
        rw [scan_acc c rest b hc] at h
        have hb2 : ']' ∉ b ++ [c] := by
          intro hx
          rcases List.mem_append.mp hx with hx | hx
          · exact hb hx
          · simp at hx
            exact hc hx.symm
        have hm := ih.2 (b ++ [c]) hb2 h
        simpa [List.append_assoc] using hm

/-- A bracket match in the input forces the scanner to find a token. -/
theorem matchable_tok (x : List Char) : ∀ (y z : List Char), y ≠ [] → ']' ∉ y →
    ((scanB (x ++ '[' :: y ++ ']' :: z)).1 ≠ [] ∧
      ∀ b, (scanCore (x ++ '[' :: y ++ ']' :: z) (some b)).1 ≠ []) := by
  induction x with
  | nil =>
    intro y z hy hz
    constructor
    · show (scanB ('[' :: (y ++ ']' :: z))).1 ≠ []
      rw [scanB_tag y z hz hy]
      simp
    · intro b
      show (scanCore ('[' :: (y ++ ']' :: z)) (some b)).1 ≠ []
      rw [scan_acc '[' _ b (by decide),
        scan_tag_core y z (b ++ ['[']) hz (by simp)]
      simp
  | cons c x2 ih =>
    intro y z hy hz
    constructor
    · by_cases hc : c = '['
      · subst hc
        show (scanCore ('[' :: (x2 ++ '[' :: y ++ ']' :: z)) none).1 ≠ []
        rw [scan_lbr]
        exact (ih y z hy hz).2 []
      · show (scanCore (c :: (x2 ++ '[' :: y ++ ']' :: z)) none).1 ≠ []
        rw [scan_cons_other c _ hc]
        exact (ih y z hy hz).1
    · intro b
      by_cases hc : c = ']'
      · subst hc
        by_cases hbe : b = []
        · subst hbe
          show (scanCore (']' :: (x2 ++ '[' :: y ++ ']' :: z)) (some [])).1 ≠ []
          rw [scan_rbr_nil]
          exact (ih y z hy hz).1
        · show (scanCore (']' :: (x2 ++ '[' :: y ++ ']' :: z)) (some b)).1 ≠ []
          rw [scan_rbr_cons _ b hbe]
          simp
      · show (scanCore (c :: (x2 ++ '[' :: y ++ ']' :: z)) (some b)).1 ≠ []
        rw [scan_acc c _ b hc]
        exact (ih y z hy hz).2 (b ++ [c])

theorem matchable_scan_ne (l : List Char) (h : Matchable l) : (scanB l).1 ≠ [] := by
  obtain ⟨x, y, z, he, hy, hz⟩ := h
  rw [he]
  exact (matchable_tok x y z hy hz).1

theorem noTok_of_inner (s m t : List Char) (h : (scanB (s ++ m ++ t)).1 = []) :
    (scanB m).1 = [] := by
  by_contra hne
  exact matchable_scan_ne _ (matchable_ext s m t ((scanCore_tok_matchable m).1 hne)) h

theorem noTok_pstrip (l : List Char) (h : (scanB l).1 = []) :
    (scanB (pstrip l)).1 = [] := by
  refine noTok_of_inner (l.takeWhile Char.isWhitespace) (pstrip l)
    ((l.dropWhile Char.isWhitespace).reverse.takeWhile Char.isWhitespace).reverse ?_
  rw [← pstrip_parts l]
  exact h

/-! ### Token classification lemmas -/

theorem vocab_status_fix (s : List Char) (hs : s ∈ VALID_STATUS) :
    pupper (pstrip s) = s ∧ s ≠ [] ∧ ']' ∉ s := by
  simp only [VALID_STATUS, List.mem_cons, List.not_mem_nil, or_false] at hs
  rcases hs with h | h | h | h <;> subst h <;> refine ⟨by decide, by decide, by decide⟩

theorem vocab_mode_fix (s : List Char) (hs : s ∈ VALID_MODE) :
    pupper (pstrip s) = s ∧ s ≠ [] ∧ ']' ∉ s ∧ s ∉ VALID_STATUS := by
  simp only [VALID_MODE, List.mem_cons, List.not_mem_nil, or_false] at hs
  rcases hs with h | h <;> subst h <;>
    refine ⟨by decide, by decide, by decide, by decide⟩

theorem vocab_type_fix (s : List Char) (hs : s ∈ VALID_TYPE) :
    pupper (pstrip s) = s ∧ s ≠ [] ∧ ']' ∉ s ∧ s ∉ VALID_STATUS ∧ s ∉ VALID_MODE := by
  simp only [VALID_TYPE, List.mem_cons, List.not_mem_nil, or_false] at hs
  rcases hs with h | h <;> subst h <;>
    refine ⟨by decide, by decide, by decide, by decide, by decide⟩

theorem procToken_status (r : ParsedTitle) (s : List Char) (hs : s ∈ VALID_STATUS) :
    procToken r s = { r with status := some s } := by
  have hfix := (vocab_status_fix s hs).1
  unfold procToken
  rw [hfix, if_pos hs]

theorem procToken_mode (r : ParsedTitle) (s : List Char) (hs : s ∈ VALID_MODE) :
    procToken r s = { r with mode := some s } := by
  obtain ⟨hfix, _, _, hns⟩ := vocab_mode_fix s hs
  unfold procToken
  rw [hfix, if_neg hns, if_pos hs]

theorem procToken_type (r : ParsedTitle) (s : List Char) (hs : s ∈ VALID_TYPE) :
    procToken r s = { r with quest_type := some s } := by
  obtain ⟨hfix, _, _, hns, hnm⟩ := vocab_type_fix s hs
  unfold procToken
  rw [hfix, if_neg hns, if_neg hnm, if_pos hs]

theorem procToken_system (r : ParsedTitle) (u : List Char)
    (hu : pupper (pstrip u) = u) (h1 : u ∉ VALID_STATUS) (h2 : u ∉ VALID_MODE)
    (h3 : u ∉ VALID_TYPE) (h4 : r.system = none) :
    procToken r u = { r with system := some u } := by
  unfold procToken
  rw [hu, if_neg h1, if_neg h2, if_neg h3, if_pos h4]

/-! ### Scanning a canonically built title -/

theorem joinSpace_cons (x : List Char) (l : List (List Char)) (h : l ≠ []) :
    joinSpace (x :: l) = x ++ ' ' :: joinSpace l := by
  cases l with
  | nil => exact absurd rfl h
  | cons p rest => rfl

theorem scanB_tags (ws : List (List Char)) (ti : List Char)
    (hws : ∀ w ∈ ws, w ≠ [] ∧ ']' ∉ w) (hti : (scanB ti).1 = []) :
    scanB (joinSpace (ws.map (fun w => '[' :: w ++ [']']) ++ [ti]))
      = (ws, List.replicate ws.length ' ' ++ ti) := by
  induction ws with
  | nil =>
    have hj : joinSpace (([] : List (List Char)).map (fun w => '[' :: w ++ [']']) ++ [ti])
        = ti := rfl
    rw [hj]
    have h2 := (scanCore_noTok ti).1 hti
    show scanCore ti none = ([], List.replicate 0 ' ' ++ ti)
    rw [List.replicate, List.nil_append]
    exact Prod.ext hti h2
  | cons w ws2 ih =>
    obtain ⟨hw1, hw2⟩ := hws w (List.mem_cons_self w ws2)
    rw [List.map_cons, List.cons_append, joinSpace_cons _ _ (by simp)]
    have hshape : ('[' :: w ++ [']']) ++
          ' ' :: joinSpace (ws2.map (fun v => '[' :: v ++ [']']) ++ [ti])
        = '[' :: (w ++ ']' ::
            (' ' :: joinSpace (ws2.map (fun v => '[' :: v ++ [']']) ++ [ti]))) := by
      simp
    rw [hshape, scanB_tag w _ hw2 hw1]
    have htail : scanB (' ' :: joinSpace (ws2.map (fun v => '[' :: v ++ [']']) ++ [ti]))
        = ((scanB (joinSpace (ws2.map (fun v => '[' :: v ++ [']']) ++ [ti]))).1,
            ' ' :: (scanB (joinSpace (ws2.map (fun v => '[' :: v ++ [']']) ++ [ti]))).2) := by
      unfold scanB
      rw [scan_cons_other ' ' _ (by decide)]
    rw [htail, ih (fun v hv => hws v (List.mem_cons_of_mem w hv))]
    simp [List.replicate_succ]

/-- `build_core` on truthy fields is the space-join of the bracket tags and
the title. -/
theorem build_core_eq (st mo qt sy : Option (List Char)) (ti : List Char)
    (h1 : ∀ s, st = some s → s ≠ []) (h2 : ∀ s, mo = some s → s ≠ [])
    (h3 : ∀ s, qt = some s → s ≠ []) (h4 : ∀ s, sy = some s → s ≠ []) :
    build_core st mo qt sy ti
      = joinSpace (((st.toList ++ mo.toList ++ qt.toList ++ sy.toList).map
          (fun w => '[' :: w ++ [']'])) ++ [ti]) := by
  have e : ∀ (x : Option (List Char)), (∀ s, x = some s → s ≠ []) →
      (if truthy x then [('[' :: x.getD []) ++ [']']] else [])
        = x.toList.map (fun w => '[' :: w ++ [']']) := by
    intro x hx
    cases x with
    | none => rfl
    | some s =>
      have hs : s.isEmpty = false := by
        cases s with
        | nil => exact absurd rfl (hx [] rfl)
        | cons a m => rfl
      have ht : truthy (some s) = true := by
        simp [truthy, hs]
      rw [ht, if_pos rfl]
      rfl
  unfold build_core
  rw [e st h1, e mo h2, e qt h3, e sy h4]
  rw [← List.map_append, ← List.map_append, ← List.map_append]

/-- Round trip on canonical fields: parsing the canonically built title
recovers exactly the status/mode/type/system/title that went in. -/
theorem parse_build_core (st mo qt sy : Option (List Char)) (ti : List Char)
    (hst : ∀ s, st = some s → s ∈ VALID_STATUS)
    (hmo : ∀ s, mo = some s → s ∈ VALID_MODE)
    (hqt : ∀ s, qt = some s → s ∈ VALID_TYPE)
    (hsy : ∀ u, sy = some u → u ≠ [] ∧ pupper (pstrip u) = u ∧ ']' ∉ u ∧
        u ∉ VALID_STATUS ∧ u ∉ VALID_MODE ∧ u ∉ VALID_TYPE)
    (hti1 : ti ≠ []) (hti2 : pstrip ti = ti) (hti3 : (scanB ti).1 = []) :
    parse_title (build_core st mo qt sy ti) = ⟨st, mo, qt, sy, ti⟩ := by
  have hmem : ∀ (x : Option (List Char)) (w : List Char), w ∈ x.toList → x = some w := by
    intro x w hw
    cases x with
    | none => simp at hw
    | some v =>
      simp only [Option.toList, List.mem_singleton] at hw
      rw [hw]
  rw [build_core_eq st mo qt sy ti
    (fun s hs => (vocab_status_fix s (hst s hs)).2.1)
    (fun s hs => (vocab_mode_fix s (hmo s hs)).2.1)
    (fun s hs => (vocab_type_fix s (hqt s hs)).2.1)
    (fun s hs => (hsy s hs).1)]
  have hwsp : ∀ w ∈ st.toList ++ mo.toList ++ qt.toList ++ sy.toList,
      w ≠ [] ∧ ']' ∉ w := by
    intro w hw
    rcases List.mem_append.mp hw with hw | hw
    rotate_left
    · exact ⟨(hsy w (hmem sy w hw)).1, (hsy w (hmem sy w hw)).2.2.1⟩
    rcases List.mem_append.mp hw with hw | hw
    rotate_left
    · exact ⟨(vocab_type_fix w (hqt w (hmem qt w hw))).2.1,
        (vocab_type_fix w (hqt w (hmem qt w hw))).2.2.1⟩
    rcases List.mem_append.mp hw with hw | hw
    · exact ⟨(vocab_status_fix w (hst w (hmem st w hw))).2.1,
        (vocab_status_fix w (hst w (hmem st w hw))).2.2⟩
    · exact ⟨(vocab_mode_fix w (hmo w (hmem mo w hw))).2.1,
        (vocab_mode_fix w (hmo w (hmem mo w hw))).2.2.1⟩
  have hscan := scanB_tags (st.toList ++ mo.toList ++ qt.toList ++ sy.toList) ti hwsp hti3
  unfold parse_title
  rw [hscan]
  dsimp only
  rw [pstrip_replicate_space, hti2, if_neg hti1]
  have f1 : st.toList.foldl procToken (⟨none, none, none, none, []⟩ : ParsedTitle)
      = ⟨st, none, none, none, []⟩ := by
    cases st with
    | none => rfl
    | some s =>
      show procToken ⟨none, none, none, none, []⟩ s = _
      rw [procToken_status _ s (hst s rfl)]
  have f2 : mo.toList.foldl procToken (⟨st, none, none, none, []⟩ : ParsedTitle)
      = ⟨st, mo, none, none, []⟩ := by
    cases mo with
    | none => rfl
    | some m =>
      show procToken ⟨st, none, none, none, []⟩ m = _
      rw [procToken_mode _ m (hmo m rfl)]
  have f3 : qt.toList.foldl procToken (⟨st, mo, none, none, []⟩ : ParsedTitle)
      = ⟨st, mo, qt, none, []⟩ := by
    cases qt with
    | none => rfl
    | some t =>
      show procToken ⟨st, mo, none, none, []⟩ t = _
      rw [procToken_type _ t (hqt t rfl)]
  have f4 : sy.toList.foldl procToken (⟨st, mo, qt, none, []⟩ : ParsedTitle)
      = ⟨st, mo, qt, sy, []⟩ := by
    cases sy with
    | none => rfl
    | some u =>
      obtain ⟨_, hfix, _, h1, h2, h3⟩ := hsy u rfl
      show procToken ⟨st, mo, qt, none, []⟩ u = _
      rw [procToken_system _ u hfix h1 h2 h3 rfl]
  rw [List.foldl_append, List.foldl_append, List.foldl_append, f1, f2, f3, f4]

/-- The tag fields of any `parse_title` output are canonical: vocabulary
members, or (for the system) a stripped-uppercased `]`-free non-vocabulary
token. -/
theorem parse_canon (T : List Char) :
    (∀ s, (parse_title T).status = some s → s ∈ VALID_STATUS) ∧
    (∀ s, (parse_title T).mode = some s → s ∈ VALID_MODE) ∧
    (∀ s, (parse_title T).quest_type = some s → s ∈ VALID_TYPE) ∧
    (∀ u, (parse_title T).system = some u → pupper (pstrip u) = u ∧ ']' ∉ u ∧
      u ∉ VALID_STATUS ∧ u ∉ VALID_MODE ∧ u ∉ VALID_TYPE) := by
  have htoks : ∀ t ∈ (scanB T).1, t ≠ [] ∧ ']' ∉ t := (scanCore_props T).1.1
  suffices h : ∀ (ts : List (List Char)), (∀ t ∈ ts, ']' ∉ t) →
      ∀ r : ParsedTitle,
      ((∀ s, r.status = some s → s ∈ VALID_STATUS) ∧
       (∀ s, r.mode = some s → s ∈ VALID_MODE) ∧
       (∀ s, r.quest_type = some s → s ∈ VALID_TYPE) ∧
       (∀ u, r.system = some u → pupper (pstrip u) = u ∧ ']' ∉ u ∧
          u ∉ VALID_STATUS ∧ u ∉ VALID_MODE ∧ u ∉ VALID_TYPE)) →
      ((∀ s, (ts.foldl procToken r).status = some s → s ∈ VALID_STATUS) ∧
       (∀ s, (ts.foldl procToken r).mode = some s → s ∈ VALID_MODE) ∧
       (∀ s, (ts.foldl procToken r).quest_type = some s → s ∈ VALID_TYPE) ∧
       (∀ u, (ts.foldl procToken r).system = some u → pupper (pstrip u) = u ∧
          ']' ∉ u ∧ u ∉ VALID_STATUS ∧ u ∉ VALID_MODE ∧ u ∉ VALID_TYPE)) by
    exact h (scanB T).1 (fun t ht => (htoks t ht).2) ⟨none, none, none, none, []⟩
      (by refine ⟨?_, ?_, ?_, ?_⟩ <;> intro s hs <;> simp at hs)
  intro ts
  induction ts with
  | nil => intro _ r hr; exact hr
  | cons t ts2 ih =>
    intro hts r hr
    have ht : ']' ∉ t := hts t (List.mem_cons_self t ts2)
    rw [List.foldl_cons]
    refine ih (fun v hv => hts v (List.mem_cons_of_mem t hv)) (procToken r t) ?_
    have hu : pupper (pstrip (pupper (pstrip t))) = pupper (pstrip t) := by
      rw [pstrip_pupper, pstrip_idem, pupper_idem]
    have hbr : ']' ∉ pupper (pstrip t) :=
      mem_pupper_rbracket _ (fun hx => ht (mem_pstrip hx))
    unfold procToken
    by_cases h1 : pupper (pstrip t) ∈ VALID_STATUS
    · rw [if_pos h1]
      refine ⟨fun s hs => ?_, hr.2.1, hr.2.2.1, hr.2.2.2⟩
      simp only [Option.some.injEq] at hs
      exact hs ▸ h1
    rw [if_neg h1]
    by_cases h2 : pupper (pstrip t) ∈ VALID_MODE
    · rw [if_pos h2]
      refine ⟨hr.1, fun s hs => ?_, hr.2.2.1, hr.2.2.2⟩
      simp only [Option.some.injEq] at hs
      exact hs ▸ h2
    rw [if_neg h2]
    by_cases h3 : pupper (pstrip t) ∈ VALID_TYPE
    · rw [if_pos h3]
      refine ⟨hr.1, hr.2.1, fun s hs => ?_, hr.2.2.2⟩
      simp only [Option.some.injEq] at hs
      exact hs ▸ h3
    rw [if_neg h3]
    by_cases h4 : r.system = none
    · rw [if_pos h4]
      refine ⟨hr.1, hr.2.1, hr.2.2.1, fun u hu2 => ?_⟩
      simp only [Option.some.injEq] at hu2
      exact hu2 ▸ ⟨hu, hbr, h1, h2, h3⟩
    · rw [if_neg h4]
      exact hr

/-- The title of any `parse_title` output is non-empty, self-stripped and
free of bracket matches. -/
theorem parse_title_props (T : List Char) :
    (parse_title T).title ≠ [] ∧
    pstrip ((parse_title T).title) = (parse_title T).title ∧
    (scanB ((parse_title T).title)).1 = [] := by
  have hrem : (scanB ((scanB T).2)).1 = [] := (scanCore_props T).1.2
  have hT : (parse_title T).title
      = if pstrip (scanB T).2 = [] then "Untitled Quest".data
        else pstrip (scanB T).2 := rfl
  by_cases h : pstrip (scanB T).2 = []
  · rw [hT, if_pos h]
    exact ⟨by decide, by decide, by decide⟩
  · rw [hT, if_neg h]
    exact ⟨h, pstrip_idem _, noTok_pstrip _ hrem⟩

/-- Claim C5 counterexample:  A quest whose free-text system field is the
word `FULL` (storable via `/quest update system:full`) does not round-trip:
the rebuilt title `[RECRUITING] [FULL] T` parses the system tag as a status,
so the parsed system is absent and the parsed status differs. -/
theorem c5_roundtrip_counterexample :
    (parse_title (build_thread_title qBadSystem)).system ≠ qBadSystem.system ∧
    (parse_title (build_thread_title qBadSystem)).status ≠ qBadSystem.status := by
  decide

/-- Claim C5 (amended):  For every quest record with canonical fields —
status/mode/type in their vocabularies or unset, system unset or a
non-empty stripped-uppercase string without `]` and outside all three
vocabularies, and a non-empty self-stripped title containing no bracket
match — parsing the canonical title built from the record recovers exactly
the record's status, mode, quest_type, system and title, and absent fields
parse back as absent. -/
theorem c5_roundtrip (q : Quest)
    (hst : ∀ s, q.status = some s → s ∈ VALID_STATUS)
    (hmo : ∀ s, q.mode = some s → s ∈ VALID_MODE)
    (hqt : ∀ s, q.quest_type = some s → s ∈ VALID_TYPE)
    (hsy : ∀ u, q.system = some u → u ≠ [] ∧ pupper (pstrip u) = u ∧ ']' ∉ u ∧
        u ∉ VALID_STATUS ∧ u ∉ VALID_MODE ∧ u ∉ VALID_TYPE)
    (hti1 : q.title ≠ []) (hti2 : pstrip q.title = q.title)
    (hti3 : (scanB q.title).1 = []) :
    parse_title (build_thread_title q)
      = ⟨q.status, q.mode, q.quest_type, q.system, q.title⟩ :=
  parse_build_core q.status q.mode q.quest_type q.system q.title
    hst hmo hqt hsy hti1 hti2 hti3

/-- Witness for C5 (amended) on the concrete record `qCap1`. -/
theorem c5_roundtrip_witness :
    parse_title (build_thread_title qCap1)
      = ⟨qCap1.status, qCap1.mode, qCap1.quest_type, qCap1.system, qCap1.title⟩ :=
  c5_roundtrip qCap1 (by decide) (by decide) (by decide) (by decide)
    (by decide) (by decide) (by decide)

/-- Claim C9 counterexample:  For `T = "[ ] x"` the first parse yields
`system = ""` (an all-whitespace bracketed token strips to the empty
string), the build drops the falsy empty system, and the re-parse yields
`system = None`: the composition is not a fixed point on parser outputs. -/
theorem c9_fixed_point_counterexample :
    parse_title (build_thread_title_parsed (parse_title "[ ] x".data))
      ≠ parse_title "[ ] x".data := by
  decide

/-- Claim C9 (amended):  For every title string whose parse does not produce
the empty-string system (i.e. no all-whitespace bracketed token became the
system), parse-build-parse is a fixed point: re-parsing the canonical title
built from `parse_title T` returns `parse_title T` itself. -/
theorem c9_fixed_point (T : List Char)
    (hsys : (parse_title T).system ≠ some []) :
    parse_title (build_thread_title_parsed (parse_title T)) = parse_title T := by
  obtain ⟨hc1, hc2, hc3, hc4⟩ := parse_canon T
  obtain ⟨ht1, ht2, ht3⟩ := parse_title_props T
  have h := parse_build_core (parse_title T).status (parse_title T).mode
    (parse_title T).quest_type (parse_title T).system (parse_title T).title
    hc1 hc2 hc3
    (fun u hu => ⟨fun he => hsys (he ▸ hu), (hc4 u hu).1, (hc4 u hu).2.1,
      (hc4 u hu).2.2.1, (hc4 u hu).2.2.2.1, (hc4 u hu).2.2.2.2⟩)
    ht1 ht2 ht3
  rw [build_thread_title_parsed, h]

/-- Witness for C9 (amended) on a concrete title. -/
theorem c9_fixed_point_witness :
    parse_title (build_thread_title_parsed
        (parse_title "[full] [online] [D&D] lost mine".data))
      = parse_title "[full] [online] [D&D] lost mine".data :=
  c9_fixed_point "[full] [online] [D&D] lost mine".data (by decide)

/-- Spec scenario check: the worked example title of the specification
parses to the expected record. -/
theorem parse_title_scenario :
    parse_title "[RECRUITING] [ONLINE] [ONESHOT] [D&D] Lost Mine of Phandelver".data =
      ⟨some "RECRUITING".data, some "ONLINE".data, some "ONESHOT".data,
        some "D&D".data, "Lost Mine of Phandelver".data⟩ := by
  decide

end Aetherius
